import Mathlib

/-!
Verification development for the `unpack` package: a JSON decoding/encoding
library for documents that are maps of uniquely-named, structurally identical
objects.  The development shallowly embeds the current core file (the
`context`-based `unmarshal`/`marshal` with `StructuredData`), the options
builder (`options.go`), and the reflection-driven coercion engine
(`mapToStruct` / `setFieldValue` / `setMapValue` / `setSliceValue` /
`roundTripToStruct`).

Modelling conventions:
* The external JSON codec (`encoding/json`) is assumed correct, so "bytes"
  are represented by the dynamic JSON tree `Json` itself.  A JSON number is
  carried as an exact rational pair `JNum` (Go decodes numbers to `float64`;
  every number appearing in the claims is exactly representable).
* Go maps (`map[string]any`, `map[string]map[string]any`) are association
  lists with unique keys; `json.Unmarshal` deduplicates keys last-wins,
  modelled by `buildObj`.  Go map iteration order is arbitrary; the source
  sorts keys before use, and the ordering theorems show the result does not
  depend on the enumeration order.
* Failure modes are `Res`: an error return, or a runtime panic (the
  unchecked type assertion `mData[name].(map[string]any)` and the `marshal`
  switch default are the only panic sites in the source).
* The `sync.Pool` buffer reuse in `mapper.go` is a pure allocation
  optimisation (buffers are cleared on acquire and release); the model
  allocates fresh lists, which the spec explicitly permits.
-/

namespace Unpack

/-- A dynamic JSON number: Go's `float64` payload, kept as an exact
    numerator/denominator pair. -/
structure JNum where
  num : Int
  den : Nat
deriving DecidableEq

/-- Go's conversion of a `float64` to an integer type truncates toward
    zero; `Int.tdiv` is truncating division. -/
def numTrunc (v : JNum) : Int := Int.tdiv v.num (Int.ofNat v.den)

/-- The dynamic JSON tree produced by the external `encoding/json` decoder:
    string-keyed objects, arrays, strings, numbers, booleans, null. -/
inductive Json where
  | null
  | bool (b : Bool)
  | num (v : JNum)
  | str (s : String)
  | arr (elems : List Json)
  | obj (kvs : List (String × Json))

/-- Store `(k, v)` in an association list with Go map semantics: replace the
    existing entry for `k` if present (last write wins), else append. -/
def upsert {α : Type} : List (String × α) → String → α → List (String × α)
  | [], k, v => [(k, v)]
  | (k', v') :: rest, k, v =>
    if k' = k then (k, v) :: rest else (k', v') :: upsert rest k v

/-- Build a Go map from a list of key/value pairs: later duplicates of a key
    overwrite earlier ones, exactly as `json.Unmarshal` populates a map. -/
def buildObj {α : Type} (kvs : List (String × α)) : List (String × α) :=
  kvs.foldl (fun m p => upsert m p.1 p.2) []

/-- Byte-wise lexicographic comparison of character lists (Go compares
    strings byte-wise; on the claims' inputs the two agree). -/
def strLeAux : List Char → List Char → Bool
  | [], _ => true
  | _ :: _, [] => false
  | c :: cs, d :: ds =>
    if c.toNat < d.toNat then true
    else if d.toNat < c.toNat then false
    else strLeAux cs ds

/-- Lexicographic `<=` on strings, mirroring Go's `<` used by
    `sort.StringSlice`. -/
def strLe (a b : String) : Bool := strLeAux a.data b.data

/-- The key sort performed by `sort.Sort(sortedKeys)` on the collected keys
    of the data map. -/
def sortKeys (ks : List String) : List String :=
  List.insertionSort (fun a b => strLe a b = true) ks

/-! The `structType` and `Ordering` enumerations of `options.go`.  Both are
    Go `int`-valued named types, so callers can supply arbitrary integers;
    they are modelled as `Int` with the declared constants. -/

def unknownStructType : Int := 0
def namedItemMap : Int := 1
def anonymousItemMap : Int := 2
def structuredMap : Int := 3
def invalidJSONStructType : Int := 4

/-- Source: `func (j structType) isValid() bool`. -/
def structTypeIsValid (j : Int) : Prop :=
  unknownStructType < j ∧ j < invalidJSONStructType

instance (j : Int) : Decidable (structTypeIsValid j) := by
  unfold structTypeIsValid; infer_instance

def UnknownOrdering : Int := 0
def Ascending : Int := 1
def Descending : Int := 2
def InvalidOrdering : Int := 3

/-- Source: `func (o Ordering) isValid() bool`. -/
def orderingIsValid (o : Int) : Prop :=
  UnknownOrdering < o ∧ o < InvalidOrdering

instance (o : Int) : Decidable (orderingIsValid o) := by
  unfold orderingIsValid; infer_instance

/-- The `Options[T, PT]` configuration struct.  `R` stands for the pointer
    type `PT` of the target record type `T`. -/
structure Options (R : Type) where
  structType : Int
  NewFn : Unit → R
  Ordering : Int

/-- Source: `withStructType` — sets the shape only when the supplied
    enumeration value is valid, silently ignoring it otherwise. -/
def withStructType {R : Type} (j : Int) : Options R → Options R :=
  fun o => if structTypeIsValid j then { o with structType := j } else o

/-- Source: `WithOrdering` — sets the ordering only when the supplied
    enumeration value is valid, silently ignoring it otherwise. -/
def WithOrdering {R : Type} (ordering : Int) : Options R → Options R :=
  fun o => if orderingIsValid ordering then { o with Ordering := ordering } else o

/-- Source: `WithNewFn` — overrides instance creation (a `nil` function is
    not representable in the model; the source ignores `nil`). -/
def WithNewFn {R : Type} (fn : Unit → R) : Options R → Options R :=
  fun o => { o with NewFn := fn }

/-- Apply the variadic option functions in order, as the
    `for _, opt := range opts { opt(&o) }` loop does. -/
def applyOpts {R : Type} (opts : List (Options R → Options R)) (o : Options R) : Options R :=
  opts.foldl (fun o f => f o) o

/-- The error values the decode/encode operations can return.  The json
    shape errors returned by `json.Unmarshal` on a document that does not
    fit the declared envelope type are collapsed into `malformedEnvelope`;
    errors surfaced from the per-record fallback decode or the metadata
    decode carry their message in `coercion`. -/
inductive Err where
  | malformedEnvelope
  | metaNameNotFound
  | dataNameNotFound
  | noNameSpecified
  | coercion (msg : String)
deriving DecidableEq

/-- Outcome of a Go call: a normal return, an error return, or a panic. -/
inductive Res (α : Type) where
  | ok (a : α)
  | err (e : Err)
  | panicked (msg : String)
deriving DecidableEq

def Res.map {α β : Type} (f : α → β) : Res α → Res β
  | .ok a => .ok (f a)
  | .err e => .err e
  | .panicked m => .panicked m

/-- The per-target-type behaviour the generic Go functions delegate to:
    the `Unpackable` interface methods of `PT`, `json.Marshal` of a record,
    the reflection engine `mapToStruct` instantiated at `T` (and at the
    metadata type `M`), the `roundTripToStruct` fallback (which re-encodes
    a dynamic value and runs `json.Unmarshal` into a fresh `T`), and the
    zero-value allocators `new(T)` / `new(M)`. -/
structure UnpackableT (R M : Type) where
  getName : R → String
  setName : R → String → R
  toJson : R → Json
  mapToStructT : List (String × Json) → R → Except String R
  roundTripT : Json → R → Except String R
  metaFromMap : List (String × Json) → M → Except String M
  newT : Unit → R
  newM : Unit → M

/-! Envelope decoding.  `json.Unmarshal(b, &m)` for `map[string]any` /
    `map[string]map[string]any`: a JSON null sets the map to `nil`
    (modelled `Option.none`) without error; a non-object document is a
    codec error; object values of the outer map of a map-of-maps must be
    objects or null. -/

/-- Decode one value of the outer map of a `map[string]map[string]any`:
    object or null, anything else is a codec error. -/
def decodeInner : Json → Option (Option (List (String × Json)))
  | .obj kvs => some (some (buildObj kvs))
  | .null => some none
  | _ => none

def decodeOuterEntries : List (String × Json) → Option (List (String × Option (List (String × Json))))
  | [] => some []
  | (k, v) :: rest =>
    match decodeInner v, decodeOuterEntries rest with
    | some m, some tl => some ((k, m) :: tl)
    | _, _ => none

/-- Decode a document into `map[string]map[string]any` (the `namedItemMap`
    and `structuredMap` shapes). -/
def decodeMapMap (b : Json) : Option (Option (List (String × Option (List (String × Json))))) :=
  match b with
  | .obj kvs =>
    match decodeOuterEntries kvs with
    | some l => some (some (buildObj l))
    | none => none
  | .null => some none
  | _ => none

/-- Decode a document into `map[string]any` (the `anonymousItemMap` shape). -/
def decodeMap (b : Json) : Option (Option (List (String × Json))) :=
  match b with
  | .obj kvs => some (some (buildObj kvs))
  | .null => some none
  | _ => none

/-- The body of the per-key loop of `unmarshal`: the unchecked type
    assertion `mData[name].(map[string]any)` (which panics when the entry
    is not an object), the primary `mapToStruct` attempt on a fresh
    instance, the `roundTripToStruct` fallback on another fresh instance
    with its error surfaced, and finally `r.SetName(name)`. -/
def itemDecode {R M : Type} (impl : UnpackableT R M) (newFn : Unit → R)
    (v : Json) (name : String) : Res R :=
  match v with
  | .obj kvs =>
    let m := buildObj kvs
    match impl.mapToStructT m (newFn ()) with
    | .ok r => .ok (impl.setName r name)
    | .error _ =>
      match impl.roundTripT (.obj m) (newFn ()) with
      | .ok r => .ok (impl.setName r name)
      | .error e => .err (.coercion e)
  | _ => .panicked "interface conversion"

/-- The `for _, name := range sortedKeys` loop, appending one decoded
    record per key; a missing key would be a `nil` interface whose type
    assertion panics (unreachable: the keys come from the map itself). -/
def processItems {R M : Type} (impl : UnpackableT R M) (newFn : Unit → R)
    (mData : List (String × Json)) : List String → Res (List R)
  | [] => .ok []
  | name :: rest =>
    match List.lookup name mData with
    | some v =>
      match itemDecode impl newFn v name with
      | .ok r => (processItems impl newFn mData rest).map (fun l => r :: l)
      | .err e => .err e
      | .panicked m => .panicked m
    | none => .panicked "interface conversion"

/-- Key collection, sorting, optional reversal, and the item loop of
    `unmarshal` (a `nil` data map iterates zero keys). -/
def assemble {R M : Type} (impl : UnpackableT R M) (o : Options R)
    (mData : Option (List (String × Json))) : Res (List R) :=
  let entries := mData.getD []
  let sortedKeys := sortKeys (entries.map Prod.fst)
  let finalKeys := if o.Ordering = Descending then sortedKeys.reverse else sortedKeys
  processItems impl o.NewFn entries finalKeys

/-- The generic core `unmarshal[M, T, PT]` of the source: shape dispatch,
    name resolution (`ErrMetaNameNotFound` / `ErrDataNameNotFound`),
    metadata decode (only when the metadata map is non-nil), then assembly.
    A `structType` value matching no case leaves the data map nil and
    returns an empty result, as the source's `switch` has no default. -/
def unmarshal {R M : Type} (impl : UnpackableT R M) (metaName dataName : String)
    (b : Json) (opts : List (Options R → Options R)) : Res (Option M × List R) :=
  let o := applyOpts opts ⟨namedItemMap, impl.newT, Ascending⟩
  if o.structType = namedItemMap then
    match decodeMapMap b with
    | none => .err .malformedEnvelope
    | some mm =>
      match List.lookup dataName (mm.getD []) with
      | none => .err .dataNameNotFound
      | some mData => (assemble impl o mData).map (fun l => (none, l))
  else if o.structType = structuredMap then
    match decodeMapMap b with
    | none => .err .malformedEnvelope
    | some mm =>
      match List.lookup metaName (mm.getD []) with
      | none => .err .metaNameNotFound
      | some mMeta =>
        match List.lookup dataName (mm.getD []) with
        | none => .err .dataNameNotFound
        | some mData =>
          match mMeta with
          | some mMetaEntries =>
            match impl.metaFromMap mMetaEntries (impl.newM ()) with
            | .error e => .err (.coercion e)
            | .ok meta => (assemble impl o mData).map (fun l => (some meta, l))
          | none => (assemble impl o mData).map (fun l => (none, l))
  else if o.structType = anonymousItemMap then
    match decodeMap b with
    | none => .err .malformedEnvelope
    | some mData => (assemble impl o mData).map (fun l => (none, l))
  else
    .ok (none, [])

/-- Public `UnmarshalWithName`: rejects an empty name with
    `ErrNoNameSpecified`, then runs the core with the `namedItemMap` shape
    forced by an appended `withStructType` option. -/
def UnmarshalWithName {R M : Type} (impl : UnpackableT R M) (name : String)
    (b : Json) (opts : List (Options R → Options R)) : Res (List R) :=
  if name = "" then .err .noNameSpecified
  else (unmarshal impl "" name b (opts ++ [withStructType namedItemMap])).map Prod.snd

/-- Public `Unmarshal`: the `anonymousItemMap` shape. -/
def Unmarshal {R M : Type} (impl : UnpackableT R M) (b : Json)
    (opts : List (Options R → Options R)) : Res (List R) :=
  (unmarshal impl "" "" b (opts ++ [withStructType anonymousItemMap])).map Prod.snd

/-- Public `UnmarshalStructuredData`: the `structuredMap` shape, returning
    the optional metadata record along with the data records. -/
def UnmarshalStructuredData {R M : Type} (impl : UnpackableT R M)
    (metaName dataName : String) (b : Json)
    (opts : List (Options R → Options R)) : Res (Option M × List R) :=
  unmarshal impl metaName dataName b (opts ++ [withStructType structuredMap])

/-- The generic core `marshal`: build the map keyed by each record's
    reported name (last write wins), then wrap per shape; an unrecognized
    `structType` hits the switch default and panics. -/
def marshal {R M : Type} (impl : UnpackableT R M) (name : String)
    (data : List R) (opts : List (Options R → Options R)) : Res Json :=
  let o := applyOpts opts ⟨namedItemMap, impl.newT, UnknownOrdering⟩
  let m := buildObj (data.map (fun d => (impl.getName d, impl.toJson d)))
  if o.structType = namedItemMap then .ok (.obj [(name, .obj m)])
  else if o.structType = anonymousItemMap then .ok (.obj m)
  else .panicked "unsupported value of Options.structType provided"

/-- Public `Marshal`: anonymous map encoding. -/
def Marshal {R M : Type} (impl : UnpackableT R M) (data : List R)
    (opts : List (Options R → Options R)) : Res Json :=
  marshal impl "" data (opts ++ [withStructType anonymousItemMap])

/-- Public `MarshalWithName`: rejects an empty name with
    `ErrNoNameSpecified` before any encoding work. -/
def MarshalWithName {R M : Type} (impl : UnpackableT R M) (name : String)
    (data : List R) (opts : List (Options R → Options R)) : Res Json :=
  if name = "" then .err .noNameSpecified
  else marshal impl name data (opts ++ [withStructType namedItemMap])

/-! The reflection-driven coercion engine.  Go struct shapes are modelled
    by a closed universe `GoTy` of the field types exercised by the source
    (`reflect.Kind` dispatch): integer and floating scalars, strings,
    booleans, `map[string]V` (the source also converts non-string keys, but
    every JSON key is a string, so the key conversion is the identity),
    slices, nested structs by value and by pointer, and `interface` (any).
    A struct value is a list of `GoField` (field name, raw json tag,
    `CanSet`, type, current value). -/

inductive GoTy where
  | tInt
  | tFloat
  | tStr
  | tBool
  | tMap (v : GoTy)
  | tSlice (t : GoTy)
  | tStruct (fields : List (String × String × Bool × GoTy))
  | tPtr (t : GoTy)
  | tAny

/-- A Go runtime value of the universe above.  A struct value carries its
    field name-to-value entries (the static per-field metadata — tag,
    settability, type — lives in `GoTy.tStruct`); a pointer value is either
    nil (`vPtrNil`) or points at a value. -/
inductive GoVal where
  | vInt (n : Int)
  | vFloat (q : JNum)
  | vStr (s : String)
  | vBool (b : Bool)
  | vMap (entries : List (String × GoVal))
  | vSlice (xs : List GoVal)
  | vStruct (fields : List (String × GoVal))
  | vPtrNil
  | vPtr (v : GoVal)
  | vAny (j : Json)

/-- One declared field of a struct being populated by `mapToStruct`: its
    name, raw json tag, `CanSet`, type and current value. -/
structure GoField where
  name : String
  tag : String
  settable : Bool
  ty : GoTy
  val : GoVal

def GoField.withVal (f : GoField) (w : GoVal) : GoField :=
  { f with val := w }

mutual

/-- Models `reflect.Zero(t)`: the zero value of a Go type (nil for maps,
    pointers and interfaces). -/
def zeroVal : GoTy → GoVal
  | .tInt => .vInt 0
  | .tFloat => .vFloat ⟨0, 1⟩
  | .tStr => .vStr ""
  | .tBool => .vBool false
  | .tMap _ => .vMap []
  | .tSlice _ => .vSlice []
  | .tStruct fs => .vStruct (zeroEntries fs)
  | .tPtr _ => .vPtrNil
  | .tAny => .vAny .null

def zeroEntries : List (String × String × Bool × GoTy) → List (String × GoVal)
  | [] => []
  | (n, _, _, ty) :: rest => (n, zeroVal ty) :: zeroEntries rest

end

/-- The zero-valued field list `reflect.New(fieldType)` allocates for a
    nested struct destination before `mapToStruct` populates it. -/
def zeroFields : List (String × String × Bool × GoTy) → List GoField
  | [] => []
  | (n, tg, s, ty) :: rest => ⟨n, tg, s, ty, zeroVal ty⟩ :: zeroFields rest

/-- Project a populated field list to the struct value it denotes. -/
def fieldsToEntries (fields : List GoField) : List (String × GoVal) :=
  fields.map (fun f => (f.name, f.val))

/-- Models the two assignment branches of `setFieldValue` for a dynamic
    JSON value: direct assignment when the runtime type already equals the
    destination type, and `reflect.Convert` when `ConvertibleTo` holds.
    The dynamic runtime types produced by `encoding/json` are `float64`,
    `string`, `bool`, `map[string]interface` and slice-of-interface; the
    only lossy admitted conversion is `float64` to an integer kind, which
    truncates toward zero, and every type converts to the empty
    interface. -/
def convertDyn : GoTy → Json → Option GoVal
  | .tFloat, .num q => some (.vFloat q)
  | .tInt, .num q => some (.vInt (numTrunc q))
  | .tStr, .str s => some (.vStr s)
  | .tBool, .bool b => some (.vBool b)
  | .tMap .tAny, .obj kvs => some (.vMap ((buildObj kvs).map (fun p => (p.1, .vAny p.2))))
  | .tSlice .tAny, .arr xs => some (.vSlice (xs.map (fun x => .vAny x)))
  | .tAny, v => some (.vAny v)
  | _, _ => none

/-- Everything before the first comma of a json tag: models
    `strings.Split(jsonTag, ",")[0]`. -/
def takeUntilComma : List Char → List Char
  | [] => []
  | c :: rest => if c = ',' then [] else c :: takeUntilComma rest

def tagHead (tag : String) : String := ⟨takeUntilComma tag.data⟩

/-- The logical field name `mapToStruct` resolves: the json tag when one is
    present (up to the first comma), the field's own name otherwise. -/
def resolvedTag (name tag : String) : String :=
  if tag = "" then name else tagHead tag

theorem sizeOf_lookup_lt {k : String} {m : List (String × Json)} {v : Json}
    (h : List.lookup k m = some v) : sizeOf v < sizeOf m := by
  induction m with
  | nil => simp at h
  | cons p rest ih =>
    obtain ⟨k', v'⟩ := p
    rw [List.lookup_cons] at h
    cases hk : k == k' with
    | true => rw [hk] at h; cases h; simp; omega
    | false => rw [hk] at h; have := ih h; simp; omega

mutual

/-- Source: `setFieldValue` — nil handling, direct/convertible assignment
    (`convertDyn` merges the `==` and `ConvertibleTo` branches, which
    assign the same value), then the structural map, slice, struct and
    pointer-to-struct cases, and the final `cannot convert` error.  The
    structural cases are written under the dynamic value's constructor:
    the source guards each of them on `valueReflect.Kind()`, so an object
    can only reach the map/struct/pointer cases and an array only the
    slice case. -/
def setFieldValue (ty : GoTy) (cur : GoVal) (v : Json) : Except String GoVal :=
  match v with
  | .null =>
    match ty with
    | .tPtr _ => .ok .vPtrNil
    | _ => .ok cur
  | .obj kvs =>
    match convertDyn ty (.obj kvs) with
    | some w => .ok w
    | none =>
      match ty with
      | .tMap vt => (setMapValue vt kvs).map GoVal.vMap
      | .tStruct fs =>
        (mapToStructFields kvs (zeroFields fs)).map (fun l => GoVal.vStruct (fieldsToEntries l))
      | .tPtr (.tStruct fs) =>
        (mapToStructFields kvs (zeroFields fs)).map
          (fun l => GoVal.vPtr (.vStruct (fieldsToEntries l)))
      | _ => .error "cannot convert value to destination type"
  | .arr xs =>
    match convertDyn ty (.arr xs) with
    | some w => .ok w
    | none =>
      match ty with
      | .tSlice t => (setSliceValue t 0 xs).map GoVal.vSlice
      | _ => .error "cannot convert value to destination type"
  | .num q =>
    match convertDyn ty (.num q) with
    | some w => .ok w
    | none => .error "cannot convert value to destination type"
  | .str s =>
    match convertDyn ty (.str s) with
    | some w => .ok w
    | none => .error "cannot convert value to destination type"
  | .bool b =>
    match convertDyn ty (.bool b) with
    | some w => .ok w
    | none => .error "cannot convert value to destination type"
termination_by (sizeOf v, 0)
decreasing_by
  all_goals simp_wf
  all_goals apply Prod.Lex.left
  all_goals try simp
  all_goals omega

/-- Source: `setMapValue` — each entry's value is zeroed when null,
    converted when `ConvertibleTo`, or recursively built for nested maps,
    slices and structs; anything else is an error.  (Pointer-valued maps
    have no case in the source and also fail.) -/
def setMapValue (vt : GoTy) : List (String × Json) → Except String (List (String × GoVal))
  | [] => .ok []
  | (k, .null) :: rest =>
    match setMapValue vt rest with
    | .ok tl => .ok ((k, zeroVal vt) :: tl)
    | .error e => .error e
  | (k, .obj kvs) :: rest =>
    match convertDyn vt (.obj kvs) with
    | some w =>
      match setMapValue vt rest with
      | .ok tl => .ok ((k, w) :: tl)
      | .error e => .error e
    | none =>
      match vt with
      | .tMap vt2 =>
        match setMapValue vt2 kvs with
        | .ok inner =>
          match setMapValue vt rest with
          | .ok tl => .ok ((k, .vMap inner) :: tl)
          | .error e => .error e
        | .error e => .error e
      | .tStruct fs =>
        match mapToStructFields kvs (zeroFields fs) with
        | .ok inner =>
          match setMapValue vt rest with
          | .ok tl => .ok ((k, .vStruct (fieldsToEntries inner)) :: tl)
          | .error e => .error e
        | .error e => .error e
      | _ => .error "cannot convert map value"
  | (k, .arr xs) :: rest =>
    match convertDyn vt (.arr xs) with
    | some w =>
      match setMapValue vt rest with
      | .ok tl => .ok ((k, w) :: tl)
      | .error e => .error e
    | none =>
      match vt with
      | .tSlice t =>
        match setSliceValue t 0 xs with
        | .ok inner =>
          match setMapValue vt rest with
          | .ok tl => .ok ((k, .vSlice inner) :: tl)
          | .error e => .error e
        | .error e => .error e
      | _ => .error "cannot convert map value"
  | (k, j) :: rest =>
    match convertDyn vt j with
    | some w =>
      match setMapValue vt rest with
      | .ok tl => .ok ((k, w) :: tl)
      | .error e => .error e
    | none => .error "cannot convert map value"
termination_by kvs => (sizeOf kvs, 0)
decreasing_by
  all_goals simp_wf
  all_goals apply Prod.Lex.left
  all_goals try simp
  all_goals omega

/-- Source: `setSliceValue` — a fresh slice of the same length, each
    element recursively coerced in order, failures index-qualified. -/
def setSliceValue (t : GoTy) (i : Nat) : List Json → Except String (List GoVal)
  | [] => .ok []
  | x :: rest =>
    match setFieldValue t (zeroVal t) x with
    | .ok w =>
      match setSliceValue t (i + 1) rest with
      | .ok tl => .ok (w :: tl)
      | .error e => .error e
    | .error e => .error ("error converting slice element at index " ++ toString i ++ ": " ++ e)
termination_by xs => (sizeOf xs, 0)
decreasing_by
  all_goals simp_wf
  all_goals apply Prod.Lex.left
  all_goals try simp
  all_goals omega

/-- Source: `mapToStruct` — for each declared field resolve the json tag
    (skipping the `-` marker), look the tag up in the source map, and when
    present and the field is settable run `setFieldValue`; absent fields
    and unsettable fields are left untouched. -/
def mapToStructFields (m : List (String × Json)) : List GoField → Except String (List GoField)
  | [] => .ok []
  | f :: rest =>
    let jsonTag := resolvedTag f.name f.tag
    if jsonTag = "-" then
      match mapToStructFields m rest with
      | .ok tl => .ok (f :: tl)
      | .error e => .error e
    else if f.settable then
      match hv : List.lookup jsonTag m with
      | some value =>
        match setFieldValue f.ty f.val value with
        | .ok w =>
          match mapToStructFields m rest with
          | .ok tl => .ok (f.withVal w :: tl)
          | .error e => .error e
        | .error e => .error ("error setting field " ++ f.name ++ ": " ++ e)
      | none =>
        match mapToStructFields m rest with
        | .ok tl => .ok (f :: tl)
        | .error e => .error e
    else
      match mapToStructFields m rest with
      | .ok tl => .ok (f :: tl)
      | .error e => .error e
termination_by fields => (sizeOf m, sizeOf fields)
decreasing_by
  all_goals simp_wf
  · apply Prod.Lex.right
    omega
  · apply Prod.Lex.left
    have := sizeOf_lookup_lt hv
    omega

end

/-! Concrete `UnpackableT` instances used to evaluate the model on the
    claims' scenario inputs. -/

/-- A trivial target type (struct with no fields): `mapToStruct` accepts
    any map, names are ignored. -/
def unitImpl : UnpackableT Unit Unit :=
  ⟨fun _ => "", fun _ _ => (), fun _ => .obj [], fun _ _ => .ok (),
   fun _ _ => .ok (), fun _ _ => .ok (), fun _ => (), fun _ => ()⟩

/-- A target type carrying a name and one integer field under json tag
    `v`; its field decode fails when `v` is absent, and its conventional
    whole-document decode behaves the same way. -/
def pairImpl : UnpackableT (String × Int) Unit where
  getName := Prod.fst
  setName := fun r n => (n, r.2)
  toJson := fun r => .obj [("v", .num ⟨r.2, 1⟩)]
  mapToStructT := fun kvs r =>
    match List.lookup "v" kvs with
    | some (.num q) => .ok (r.1, numTrunc q)
    | _ => .error "missing v"
  roundTripT := fun j r =>
    match j with
    | .obj kvs =>
      match List.lookup "v" kvs with
      | some (.num q) => .ok (r.1, numTrunc q)
      | _ => .error "rt failure"
    | _ => .error "rt failure"
  metaFromMap := fun _ m => .ok m
  newT := fun _ => ("", 0)
  newM := fun _ => ()

/-- A default `Options` value over the trivial target type. -/
def optionsUnit : Options Unit := ⟨namedItemMap, fun _ => (), Ascending⟩

/-! Lemmas about the lexicographic string order used by the key sort. -/

theorem strLeAux_total (xs ys : List Char) : strLeAux xs ys = true ∨ strLeAux ys xs = true := by
  induction xs generalizing ys with
  | nil => left; rfl
  | cons c cs ih =>
    cases ys with
    | nil => right; rfl
    | cons d ds =>
      by_cases h1 : c.toNat < d.toNat
      · left; simp [strLeAux, h1]
      · by_cases h2 : d.toNat < c.toNat
        · right; simp [strLeAux, h2]
        · rcases ih ds with h | h
          · left; simp [strLeAux, h1, h2, h]
          · right; simp [strLeAux, h1, h2, h]

theorem strLeAux_trans (xs ys zs : List Char) (h1 : strLeAux xs ys = true)
    (h2 : strLeAux ys zs = true) : strLeAux xs zs = true := by
  induction xs generalizing ys zs with
  | nil => rfl
  | cons c cs ih =>
    cases ys with
    | nil => simp [strLeAux] at h1
    | cons d ds =>
      cases zs with
      | nil => simp [strLeAux] at h2
      | cons e es =>
        by_cases hcd : c.toNat < d.toNat
        · by_cases hde : d.toNat < e.toNat
          · have hce : c.toNat < e.toNat := by omega
            simp [strLeAux, hce]
          · by_cases hed : e.toNat < d.toNat
            · simp [strLeAux, hde, hed] at h2
            · have hce : c.toNat < e.toNat := by omega
              simp [strLeAux, hce]
        · by_cases hdc : d.toNat < c.toNat
          · simp [strLeAux, hcd, hdc] at h1
          · simp only [strLeAux, if_neg hcd, if_neg hdc] at h1
            by_cases hde : d.toNat < e.toNat
            · have hce : c.toNat < e.toNat := by omega
              simp [strLeAux, hce]
            · by_cases hed : e.toNat < d.toNat
              · simp [strLeAux, hde, hed] at h2
              · simp only [strLeAux, if_neg hde, if_neg hed] at h2
                have hce : ¬ c.toNat < e.toNat := by omega
                have hec : ¬ e.toNat < c.toNat := by omega
                simp only [strLeAux, if_neg hce, if_neg hec]
                exact ih ds es h1 h2

theorem char_toNat_inj {c d : Char} (h : c.toNat = d.toNat) : c = d :=
  Char.ext (UInt32.ext h)

theorem strLeAux_antisymm (xs ys : List Char) (h1 : strLeAux xs ys = true)
    (h2 : strLeAux ys xs = true) : xs = ys := by
  induction xs generalizing ys with
  | nil =>
    cases ys with
    | nil => rfl
    | cons d ds => simp [strLeAux] at h2
  | cons c cs ih =>
    cases ys with
    | nil => simp [strLeAux] at h1
    | cons d ds =>
      by_cases hcd : c.toNat < d.toNat
      · have : ¬ d.toNat < c.toNat := by omega
        simp [strLeAux, hcd, this] at h2
      · by_cases hdc : d.toNat < c.toNat
        · simp [strLeAux, hcd, hdc] at h1
        · simp only [strLeAux, if_neg hcd, if_neg hdc] at h1
          simp only [strLeAux, if_neg hdc, if_neg hcd] at h2
          have hcde : c = d := char_toNat_inj (by omega)
          rw [hcde, ih ds h1 h2]

instance : IsTotal String (fun a b => strLe a b = true) :=
  ⟨fun a b => strLeAux_total a.data b.data⟩

instance : IsTrans String (fun a b => strLe a b = true) :=
  ⟨fun _ _ _ h1 h2 => strLeAux_trans _ _ _ h1 h2⟩

instance : IsAntisymm String (fun a b => strLe a b = true) :=
  ⟨fun _ _ h1 h2 => String.ext (strLeAux_antisymm _ _ h1 h2)⟩

theorem sortKeys_sorted (ks : List String) :
    List.Sorted (fun a b => strLe a b = true) (sortKeys ks) :=
  List.sorted_insertionSort _ ks

theorem sortKeys_perm (ks : List String) : (sortKeys ks).Perm ks :=
  List.perm_insertionSort _ ks

/-- Sorting is invariant under the enumeration order of the keys: Go map
    iteration order cannot influence the sorted key sequence. -/
theorem sortKeys_eq_of_perm (ks ks' : List String) (h : ks.Perm ks') :
    sortKeys ks = sortKeys ks' :=
  List.eq_of_perm_of_sorted ((sortKeys_perm ks).trans (h.trans (sortKeys_perm ks').symm))
    (sortKeys_sorted ks) (sortKeys_sorted ks')

/-! Lemmas about `upsert` / `buildObj`. -/

theorem upsert_of_not_mem {α : Type} {l : List (String × α)} {k : String} {v : α}
    (h : k ∉ l.map Prod.fst) : upsert l k v = l ++ [(k, v)] := by
  induction l with
  | nil => rfl
  | cons p rest ih =>
    obtain ⟨k', v'⟩ := p
    simp only [List.map_cons, List.mem_cons] at h
    push_neg at h
    rw [upsert, if_neg (fun hh => h.1 hh.symm), ih h.2]
    simp

theorem foldl_upsert_of_nodup {α : Type} (l : List (String × α)) :
    ∀ acc : List (String × α), (acc.map Prod.fst ++ l.map Prod.fst).Nodup →
    l.foldl (fun m p => upsert m p.1 p.2) acc = acc ++ l := by
  induction l with
  | nil => intro acc _; simp
  | cons p rest ih =>
    intro acc h
    obtain ⟨k, v⟩ := p
    have hdisj : List.Disjoint (acc.map Prod.fst) ((k, v).1 :: rest.map Prod.fst) :=
      List.disjoint_of_nodup_append (by simpa using h)
    have hk : k ∉ acc.map Prod.fst := fun hmem => hdisj hmem (by simp)
    rw [List.foldl_cons, upsert_of_not_mem hk, ih (acc ++ [(k, v)]) (by simpa using h)]
    simp

/-- A list whose keys are already unique is a fixed point of the Go-map
    rebuild. -/
theorem buildObj_eq_self {α : Type} (l : List (String × α))
    (h : (l.map Prod.fst).Nodup) : buildObj l = l := by
  rw [buildObj, foldl_upsert_of_nodup l [] (by simpa using h)]
  simp

theorem lookup_map_pairs {β R : Type} (f : β → String) (g : β → R) :
    ∀ (recs : List β) (r : β), (recs.map f).Nodup → r ∈ recs →
    List.lookup (f r) (recs.map (fun x => (f x, g x))) = some (g r) := by
  intro recs
  induction recs with
  | nil => intro r _ hr; simp at hr
  | cons x rest ih =>
    intro r hnd hr
    simp only [List.map_cons, List.nodup_cons] at hnd
    rcases List.mem_cons.mp hr with hrx | hrr
    · subst hrx
      simp [List.lookup_cons]
    · have hne : f r ≠ f x := by
        intro he
        exact hnd.1 (he ▸ List.mem_map_of_mem f hrr)
      rw [List.map_cons, List.lookup_cons]
      have : (f r == f x) = false := beq_false_of_ne hne
      rw [this]
      exact ih r hnd.2 hrr

/-- Canonical choice of the record carrying a given name. -/
def recFor {R M : Type} (impl : UnpackableT R M) (recs : List R) (n : String) : R :=
  (recs.find? (fun r => impl.getName r == n)).getD (impl.newT ())

/-! Lemmas about the assembly loop. -/

theorem itemDecode_ok_name {R M : Type} (impl : UnpackableT R M)
    (hgs : ∀ r n, impl.getName (impl.setName r n) = n)
    (newFn : Unit → R) (v : Json) (n : String) (r : R)
    (h : itemDecode impl newFn v n = .ok r) : impl.getName r = n := by
  cases v with
  | obj kvs =>
    unfold itemDecode at h
    dsimp only at h
    cases hm : impl.mapToStructT (buildObj kvs) (newFn ()) with
    | ok r' =>
      rw [hm] at h
      simp only [Res.ok.injEq] at h
      rw [← h]
      exact hgs r' n
    | error e1 =>
      rw [hm] at h
      cases hr : impl.roundTripT (.obj (buildObj kvs)) (newFn ()) with
      | ok r' =>
        rw [hr] at h
        simp only [Res.ok.injEq] at h
        rw [← h]
        exact hgs r' n
      | error e2 => rw [hr] at h; simp at h
  | null => simp [itemDecode] at h
  | bool b => simp [itemDecode] at h
  | num q => simp [itemDecode] at h
  | str s => simp [itemDecode] at h
  | arr xs => simp [itemDecode] at h

theorem processItems_ok_names {R M : Type} (impl : UnpackableT R M)
    (hgs : ∀ r n, impl.getName (impl.setName r n) = n)
    (newFn : Unit → R) (mData : List (String × Json)) :
    ∀ (ks : List String) (l : List R),
    processItems impl newFn mData ks = .ok l → l.map impl.getName = ks := by
  intro ks
  induction ks with
  | nil =>
    intro l h
    unfold processItems at h
    simp only [Res.ok.injEq] at h
    rw [← h]
    rfl
  | cons n rest ih =>
    intro l h
    unfold processItems at h
    cases hlk : List.lookup n mData with
    | none => rw [hlk] at h; simp at h
    | some v =>
      rw [hlk] at h
      dsimp only at h
      cases hit : itemDecode impl newFn v n with
      | ok r =>
        rw [hit] at h
        dsimp only at h
        cases hrest : processItems impl newFn mData rest with
        | ok tl =>
          rw [hrest] at h
          simp only [Res.map, Res.ok.injEq] at h
          rw [← h]
          simp only [List.map_cons]
          rw [itemDecode_ok_name impl hgs newFn v n r hit, ih tl hrest]
        | err e => rw [hrest] at h; simp [Res.map] at h
        | panicked m => rw [hrest] at h; simp [Res.map] at h
      | err e => rw [hit] at h; simp at h
      | panicked m => rw [hit] at h; simp at h

theorem processItems_append {R M : Type} (impl : UnpackableT R M)
    (newFn : Unit → R) (mData : List (String × Json)) :
    ∀ (ks1 ks2 : List String) (l1 l2 : List R),
    processItems impl newFn mData ks1 = .ok l1 →
    processItems impl newFn mData ks2 = .ok l2 →
    processItems impl newFn mData (ks1 ++ ks2) = .ok (l1 ++ l2) := by
  intro ks1
  induction ks1 with
  | nil =>
    intro ks2 l1 l2 h1 h2
    unfold processItems at h1
    simp only [Res.ok.injEq] at h1
    rw [← h1]
    simpa using h2
  | cons n rest ih =>
    intro ks2 l1 l2 h1 h2
    unfold processItems at h1
    cases hlk : List.lookup n mData with
    | none => rw [hlk] at h1; simp at h1
    | some v =>
      rw [hlk] at h1
      dsimp only at h1
      cases hit : itemDecode impl newFn v n with
      | ok r =>
        rw [hit] at h1
        dsimp only at h1
        cases hrest : processItems impl newFn mData rest with
        | ok tl =>
          rw [hrest] at h1
          simp only [Res.map, Res.ok.injEq] at h1
          rw [← h1]
          have := ih ks2 tl l2 hrest h2
          simp only [List.cons_append]
          unfold processItems
          rw [hlk]
          dsimp only
          rw [hit]
          dsimp only
          rw [this]
          rfl
        | err e => rw [hrest] at h1; simp [Res.map] at h1
        | panicked m => rw [hrest] at h1; simp [Res.map] at h1
      | err e => rw [hit] at h1; simp at h1
      | panicked m => rw [hit] at h1; simp at h1

theorem processItems_reverse {R M : Type} (impl : UnpackableT R M)
    (newFn : Unit → R) (mData : List (String × Json)) :
    ∀ (ks : List String) (l : List R),
    processItems impl newFn mData ks = .ok l →
    processItems impl newFn mData ks.reverse = .ok l.reverse := by
  intro ks
  induction ks with
  | nil =>
    intro l h
    unfold processItems at h
    simp only [Res.ok.injEq] at h
    rw [← h]
    rfl
  | cons n rest ih =>
    intro l h
    unfold processItems at h
    cases hlk : List.lookup n mData with
    | none => rw [hlk] at h; simp at h
    | some v =>
      rw [hlk] at h
      dsimp only at h
      cases hit : itemDecode impl newFn v n with
      | ok r =>
        rw [hit] at h
        dsimp only at h
        cases hrest : processItems impl newFn mData rest with
        | ok tl =>
          rw [hrest] at h
          simp only [Res.map, Res.ok.injEq] at h
          rw [← h]
          have hsingle : processItems impl newFn mData [n] = .ok [r] := by
            unfold processItems
            rw [hlk]
            dsimp only
            rw [hit]
            rfl
          have := processItems_append impl newFn mData rest.reverse [n]
            tl.reverse [r] (ih tl hrest) hsingle
          simpa using this
        | err e => rw [hrest] at h; simp [Res.map] at h
        | panicked m => rw [hrest] at h; simp [Res.map] at h
      | err e => rw [hit] at h; simp at h
      | panicked m => rw [hit] at h; simp at h

theorem processItems_ok_of {R M : Type} (impl : UnpackableT R M)
    (newFn : Unit → R) (mData : List (String × Json)) (g : String → R) :
    ∀ ks : List String,
    (∀ n ∈ ks, ∃ v, List.lookup n mData = some v ∧ itemDecode impl newFn v n = .ok (g n)) →
    processItems impl newFn mData ks = .ok (ks.map g) := by
  intro ks
  induction ks with
  | nil => intro _; rfl
  | cons n rest ih =>
    intro hall
    obtain ⟨v, hlk, hit⟩ := hall n (by simp)
    have hrest := ih (fun n2 hn2 => hall n2 (by simp [hn2]))
    unfold processItems
    rw [hlk]
    dsimp only
    rw [hit]
    dsimp only
    rw [hrest]
    rfl

theorem recFor_getName {R M : Type} (impl : UnpackableT R M) (recs : List R)
    (h : (recs.map impl.getName).Nodup) (r : R) (hr : r ∈ recs) :
    recFor impl recs (impl.getName r) = r := by
  induction recs with
  | nil => simp at hr
  | cons x rest ih =>
    simp only [List.map_cons, List.nodup_cons] at h
    rcases List.mem_cons.mp hr with hrx | hrr
    · rw [hrx]
      simp [recFor, List.find?]
    · have hne : impl.getName x ≠ impl.getName r := by
        intro he
        exact h.1 (he ▸ List.mem_map_of_mem impl.getName hrr)
      unfold recFor
      rw [List.find?]
      rw [beq_false_of_ne hne]
      have := ih h.2 hrr
      simpa [recFor] using this

theorem getName_recFor {R M : Type} (impl : UnpackableT R M) (recs : List R)
    (n : String) (hex : ∃ r ∈ recs, impl.getName r = n) :
    impl.getName (recFor impl recs n) = n := by
  obtain ⟨r, hr, hn⟩ := hex
  cases hfind : recs.find? (fun x => impl.getName x == n) with
  | some r2 =>
    have hpred := List.find?_some hfind
    simp only [beq_iff_eq] at hpred
    simp [recFor, hfind, hpred]
  | none =>
    have := List.find?_eq_none.mp hfind r hr
    simp [hn] at this

theorem map_recFor {R M : Type} (impl : UnpackableT R M) (recs : List R)
    (h : (recs.map impl.getName).Nodup) :
    ∀ sub : List R, (∀ r ∈ sub, r ∈ recs) →
    (sub.map impl.getName).map (recFor impl recs) = sub := by
  intro sub
  induction sub with
  | nil => intro _; rfl
  | cons x rest ih =>
    intro hsub
    simp only [List.map_cons]
    rw [recFor_getName impl recs h x (hsub x (by simp)),
      ih (fun r hr => hsub r (by simp [hr]))]

/-! Lemmas about option application. -/

theorem applyOpts_append {R : Type} (opts : List (Options R → Options R))
    (f : Options R → Options R) (o : Options R) :
    applyOpts (opts ++ [f]) o = f (applyOpts opts o) := by
  simp [applyOpts, List.foldl_append]

theorem withStructType_structType {R : Type} (c : Int) (hc : structTypeIsValid c)
    (o : Options R) : (withStructType c o).structType = c := by
  simp [withStructType, hc]

/-! Evaluation lemmas exposing the shape dispatch of `unmarshal` for each
    public entry point. -/

theorem unmarshalWithName_run {R M : Type} (impl : UnpackableT R M) (nm : String)
    (hnm : nm ≠ "") (b : Json) (opts : List (Options R → Options R)) :
    UnmarshalWithName impl nm b opts =
      (match decodeMapMap b with
       | none => Res.err .malformedEnvelope
       | some mm =>
         match List.lookup nm (mm.getD []) with
         | none => Res.err .dataNameNotFound
         | some mData =>
           (assemble impl
             (applyOpts (opts ++ [withStructType namedItemMap])
               ⟨namedItemMap, impl.newT, Ascending⟩) mData).map
             (fun l => ((none : Option M), l))).map Prod.snd := by
  unfold UnmarshalWithName
  rw [if_neg hnm]
  unfold unmarshal
  dsimp only
  rw [if_pos (by rw [applyOpts_append]; exact withStructType_structType _ (by decide) _)]

theorem unmarshalStructured_run {R M : Type} (impl : UnpackableT R M)
    (mn dn : String) (b : Json) (opts : List (Options R → Options R)) :
    UnmarshalStructuredData impl mn dn b opts =
      match decodeMapMap b with
      | none => Res.err .malformedEnvelope
      | some mm =>
        match List.lookup mn (mm.getD []) with
        | none => Res.err .metaNameNotFound
        | some mMeta =>
          match List.lookup dn (mm.getD []) with
          | none => Res.err .dataNameNotFound
          | some mData =>
            match mMeta with
            | some mMetaEntries =>
              match impl.metaFromMap mMetaEntries (impl.newM ()) with
              | .error e => Res.err (.coercion e)
              | .ok meta =>
                (assemble impl
                  (applyOpts (opts ++ [withStructType structuredMap])
                    ⟨namedItemMap, impl.newT, Ascending⟩) mData).map
                  (fun l => (some meta, l))
            | none =>
              (assemble impl
                (applyOpts (opts ++ [withStructType structuredMap])
                  ⟨namedItemMap, impl.newT, Ascending⟩) mData).map
                (fun l => (none, l)) := by
  unfold UnmarshalStructuredData
  unfold unmarshal
  dsimp only
  have h3 : (applyOpts (opts ++ [withStructType structuredMap])
      (⟨namedItemMap, impl.newT, Ascending⟩ : Options R)).structType = structuredMap := by
    rw [applyOpts_append]; exact withStructType_structType _ (by decide) _
  rw [if_neg (by rw [h3]; decide), if_pos h3]

theorem unmarshalAnon_run {R M : Type} (impl : UnpackableT R M) (b : Json)
    (opts : List (Options R → Options R)) :
    Unmarshal impl b opts =
      (match decodeMap b with
       | none => Res.err .malformedEnvelope
       | some mData =>
         (assemble impl
           (applyOpts (opts ++ [withStructType anonymousItemMap])
             ⟨namedItemMap, impl.newT, Ascending⟩) mData).map
           (fun l => ((none : Option M), l))).map Prod.snd := by
  unfold Unmarshal
  unfold unmarshal
  dsimp only
  have h2 : (applyOpts (opts ++ [withStructType anonymousItemMap])
      (⟨namedItemMap, impl.newT, Ascending⟩ : Options R)).structType = anonymousItemMap := by
    rw [applyOpts_append]; exact withStructType_structType _ (by decide) _
  rw [if_neg (by rw [h2]; decide), if_neg (by rw [h2]; decide), if_pos h2]

/-- C8: every call to a named-shape operation (`UnmarshalWithName` or
    `MarshalWithName`) with an empty-string name returns the
    `ErrNoNameSpecified` error before any decoding or encoding work is
    performed, regardless of the other arguments. -/
theorem empty_name_rejected {R M : Type} (impl : UnpackableT R M) :
    (∀ (b : Json) (opts : List (Options R → Options R)),
       UnmarshalWithName impl "" b opts = .err .noNameSpecified)
    ∧ (∀ (data : List R) (opts : List (Options R → Options R)),
       MarshalWithName impl "" data opts = .err .noNameSpecified) := by
  constructor
  · intro b opts
    unfold UnmarshalWithName
    rw [if_pos rfl]
  · intro data opts
    unfold MarshalWithName
    rw [if_pos rfl]

/-- C9: for every `Options` value, applying an option function with an
    invalid enumeration value (a `structType` or `Ordering` outside its
    valid range) leaves the previously held value unchanged, and the
    option functions report no error. -/
theorem invalid_enum_ignored {R : Type} (o : Options R) (j ord : Int)
    (hj : ¬ structTypeIsValid j) (hord : ¬ orderingIsValid ord) :
    withStructType j o = o ∧ WithOrdering ord o = o := by
  constructor
  · unfold withStructType
    rw [if_neg hj]
  · unfold WithOrdering
    rw [if_neg hord]

theorem invalid_enum_ignored_witness :
    (¬ structTypeIsValid 9 ∧ ¬ orderingIsValid (-1))
    ∧ (withStructType 9 optionsUnit = optionsUnit ∧ WithOrdering (-1) optionsUnit = optionsUnit) :=
  ⟨⟨by decide, by decide⟩, invalid_enum_ignored optionsUnit 9 (-1) (by decide) (by decide)⟩

/-- C2: the claim that no decode operation panics under malformed input is
    violated by the code: a well-formed JSON document whose data entry is
    not an object reaches the unchecked type assertion
    `mData[name].(map[string]any)` in the item loop and panics.  This
    theorem evaluates the decode at the failing input
    `obj ("a" -> obj ("x" -> 5))` with declared name `a`. -/
theorem decode_panics_on_nonobject_entry :
    UnmarshalWithName unitImpl "a" (.obj [("a", .obj [("x", .num ⟨5, 1⟩)])]) []
      = .panicked "interface conversion" := by
  rfl

/-- C3 counterexample: a structured document missing both declared names
    fails with `ErrMetaNameNotFound`, not `ErrDataNameNotFound`, because
    the metadata name is resolved first — contradicting the claim's
    universal clause that a document lacking the data name fails with
    `DataNameNotFound`. -/
theorem missing_name_counterexample :
    UnmarshalStructuredData unitImpl "m" "d" (.obj []) [] = .err .metaNameNotFound
    ∧ Err.metaNameNotFound ≠ Err.dataNameNotFound := by
  exact ⟨rfl, by decide⟩

/-- C3 (amended): a named decode whose outer map lacks the declared data
    name fails with `ErrDataNameNotFound`; a structured decode whose outer
    map lacks the metadata name fails with `ErrMetaNameNotFound`; and a
    structured decode whose outer map has the metadata name but lacks the
    data name fails with `ErrDataNameNotFound`.  When a structured document
    lacks both names the metadata check runs first.  A missing name never
    yields a generic error or a silent empty result. -/
theorem missing_name_errors {R M : Type} (impl : UnpackableT R M) :
    (∀ (nm : String) (b : Json) (opts : List (Options R → Options R)) mm,
       nm ≠ "" → decodeMapMap b = some mm →
       List.lookup nm (mm.getD []) = none →
       UnmarshalWithName impl nm b opts = .err .dataNameNotFound)
    ∧ (∀ (mn dn : String) (b : Json) (opts : List (Options R → Options R)) mm,
       decodeMapMap b = some mm →
       List.lookup mn (mm.getD []) = none →
       UnmarshalStructuredData impl mn dn b opts = .err .metaNameNotFound)
    ∧ (∀ (mn dn : String) (b : Json) (opts : List (Options R → Options R)) mm mMeta,
       decodeMapMap b = some mm →
       List.lookup mn (mm.getD []) = some mMeta →
       List.lookup dn (mm.getD []) = none →
       UnmarshalStructuredData impl mn dn b opts = .err .dataNameNotFound) := by
  refine ⟨?_, ?_, ?_⟩
  · intro nm b opts mm hnm hb hlk
    rw [unmarshalWithName_run impl nm hnm b opts, hb]
    dsimp only
    rw [hlk]
    rfl
  · intro mn dn b opts mm hb hlk
    rw [unmarshalStructured_run impl mn dn b opts, hb]
    dsimp only
    rw [hlk]
  · intro mn dn b opts mm mMeta hb hmn hdn
    rw [unmarshalStructured_run impl mn dn b opts, hb]
    dsimp only
    rw [hmn]
    dsimp only
    rw [hdn]

theorem missing_name_errors_witness :
    UnmarshalWithName unitImpl "d" (.obj []) [] = .err .dataNameNotFound
    ∧ UnmarshalStructuredData unitImpl "m" "d" (.obj [("d", .obj [])]) []
        = .err .metaNameNotFound
    ∧ UnmarshalStructuredData unitImpl "m" "d" (.obj [("m", .obj [])]) []
        = .err .dataNameNotFound := by
  refine ⟨?_, ?_, ?_⟩
  · exact (missing_name_errors unitImpl).1 "d" (.obj []) [] (some []) (by decide) rfl rfl
  · exact (missing_name_errors unitImpl).2.1 "m" "d" (.obj [("d", .obj [])]) []
      (some [("d", some [])]) rfl rfl
  · exact (missing_name_errors unitImpl).2.2 "m" "d" (.obj [("m", .obj [])]) []
      (some [("m", some [])]) (some []) rfl rfl rfl

/-- C7 counterexample: the document `obj ("a" -> null)` is not a
    well-formed map of maps, yet decoding it with the Named shape and
    declared name `a` succeeds with zero records and no error at all:
    `json.Unmarshal` decodes a null inner value to a nil map without
    complaint, so no malformed-envelope error is produced. -/
theorem malformed_named_counterexample :
    UnmarshalWithName unitImpl "a" (.obj [("a", .null)]) [] = .ok []
    ∧ Res.ok ([] : List Unit) ≠ .err .malformedEnvelope := by
  exact ⟨rfl, by decide⟩

/-- C7 (amended): every document the codec cannot decode into
    `map[string]map[string]any` — an array, a scalar, a string, or an
    object with an entry that is neither an object nor null — fails with
    the malformed-envelope error before any name resolution is attempted,
    and returns zero records; a null document or a null-valued entry is
    instead decoded as a nil map, not an error. -/
theorem malformed_named_envelope {R M : Type} (impl : UnpackableT R M)
    (nm : String) (b : Json) (opts : List (Options R → Options R))
    (hnm : nm ≠ "") (hb : decodeMapMap b = none) :
    UnmarshalWithName impl nm b opts = .err .malformedEnvelope := by
  rw [unmarshalWithName_run impl nm hnm b opts, hb]
  rfl

theorem malformed_named_envelope_witness :
    (("a" : String) ≠ "" ∧ decodeMapMap (.arr [.obj [], .obj []]) = none)
    ∧ UnmarshalWithName unitImpl "a" (.arr [.obj [], .obj []]) [] = .err .malformedEnvelope :=
  ⟨⟨by decide, rfl⟩,
   malformed_named_envelope unitImpl "a" (.arr [.obj [], .obj []]) [] (by decide) rfl⟩

theorem applyOpts_forced_named {R : Type} (nf : Unit → R) :
    applyOpts ([] ++ [withStructType namedItemMap])
      (⟨namedItemMap, nf, Ascending⟩ : Options R) = ⟨namedItemMap, nf, Ascending⟩ := rfl

theorem applyOpts_desc_named {R : Type} (nf : Unit → R) :
    applyOpts ([WithOrdering Descending] ++ [withStructType namedItemMap])
      (⟨namedItemMap, nf, Ascending⟩ : Options R) = ⟨namedItemMap, nf, Descending⟩ := rfl

theorem applyOpts_forced_anon {R : Type} (nf : Unit → R) :
    applyOpts ([] ++ [withStructType anonymousItemMap])
      (⟨namedItemMap, nf, Ascending⟩ : Options R) = ⟨anonymousItemMap, nf, Ascending⟩ := rfl

theorem applyOpts_forced_anon_marshal {R : Type} (nf : Unit → R) :
    applyOpts ([] ++ [withStructType anonymousItemMap])
      (⟨namedItemMap, nf, UnknownOrdering⟩ : Options R)
      = ⟨anonymousItemMap, nf, UnknownOrdering⟩ := rfl

theorem applyOpts_forced_named_marshal {R : Type} (nf : Unit → R) :
    applyOpts ([] ++ [withStructType namedItemMap])
      (⟨namedItemMap, nf, UnknownOrdering⟩ : Options R)
      = ⟨namedItemMap, nf, UnknownOrdering⟩ := rfl

/-- Decoding the named single-entry document `obj (nm -> obj (k -> obj
    kvs))` runs the per-item loop body on exactly that entry. -/
theorem unmarshalWithName_single {R M : Type} (impl : UnpackableT R M)
    (nm k : String) (hnm : nm ≠ "") (kvs : List (String × Json)) :
    UnmarshalWithName impl nm (.obj [(nm, .obj [(k, .obj kvs)])]) [] =
      (itemDecode impl impl.newT (.obj kvs) k).map (fun r => [r]) := by
  rw [unmarshalWithName_run impl nm hnm _ []]
  rw [show decodeMapMap (Json.obj [(nm, Json.obj [(k, Json.obj kvs)])])
      = some (some [(nm, some (buildObj [(k, Json.obj kvs)]))]) from rfl]
  try dsimp only [Option.getD]
  rw [List.lookup_cons]
  simp only [beq_self_eq_true]
  try dsimp only
  rw [applyOpts_forced_named]
  unfold assemble
  try dsimp only [Option.getD]
  rw [show buildObj [(k, Json.obj kvs)] = [(k, Json.obj kvs)] from rfl]
  rw [show List.map Prod.fst [(k, Json.obj kvs)] = [k] from rfl]
  rw [show sortKeys [k] = [k] from rfl]
  rw [if_neg (show ¬ (Ascending = Descending) from by decide)]
  unfold processItems
  rw [List.lookup_cons]
  simp only [beq_self_eq_true]
  try dsimp only
  cases hID : itemDecode impl impl.newT (.obj kvs) k with
  | ok r =>
    unfold processItems
    rfl
  | err e => rfl
  | panicked msg => rfl

/-- C5: when field-by-field coercion of a top-level data entry fails, the
    engine performs exactly one fallback — it re-encodes the original
    dynamic value and decodes it into a freshly allocated destination
    instance (`o.NewFn()` again, not the partially populated one) — and
    when that fallback also fails the whole operation fails with the
    fallback path's error, not the field-by-field error. -/
theorem fallback_once_fresh_and_surfaced {R M : Type} (impl : UnpackableT R M)
    (nm k : String) (hnm : nm ≠ "") (kvs : List (String × Json)) (e1 : String)
    (h1 : impl.mapToStructT (buildObj kvs) (impl.newT ()) = .error e1) :
    (∀ e2, impl.roundTripT (.obj (buildObj kvs)) (impl.newT ()) = .error e2 →
       UnmarshalWithName impl nm (.obj [(nm, .obj [(k, .obj kvs)])]) []
         = .err (.coercion e2))
    ∧ (∀ r, impl.roundTripT (.obj (buildObj kvs)) (impl.newT ()) = .ok r →
       UnmarshalWithName impl nm (.obj [(nm, .obj [(k, .obj kvs)])]) []
         = .ok [impl.setName r k]) := by
  constructor
  · intro e2 h2
    rw [unmarshalWithName_single impl nm k hnm kvs]
    unfold itemDecode
    dsimp only
    rw [h1]
    dsimp only
    rw [h2]
    rfl
  · intro r h2
    rw [unmarshalWithName_single impl nm k hnm kvs]
    unfold itemDecode
    dsimp only
    rw [h1]
    dsimp only
    rw [h2]
    rfl

theorem fallback_once_witness :
    (pairImpl.mapToStructT (buildObj []) (pairImpl.newT ()) = .error "missing v"
      ∧ pairImpl.roundTripT (.obj (buildObj [])) (pairImpl.newT ()) = .error "rt failure")
    ∧ UnmarshalWithName pairImpl "a" (.obj [("a", .obj [("x", .obj [])])]) []
        = .err (.coercion "rt failure") :=
  ⟨⟨rfl, rfl⟩,
   (fallback_once_fresh_and_surfaced pairImpl "a" "x" (by decide) [] "missing v" rfl).1
     "rt failure" rfl⟩

/-- C4: decoding is deterministic and ordering-controlled.  If a named
    decode with the default (ascending) ordering returns `l`, then: the
    same call returns the same `l` again; the records of `l` are ordered by
    lexicographically ascending key (their assigned names); decoding the
    same bytes with `WithOrdering Descending` returns exactly `l.reverse`;
    and the sorted key sequence is independent of the arbitrary enumeration
    order of the Go map's keys.  The `getName`/`setName` law is the
    `Unpackable` interface contract. -/
theorem decode_deterministic_and_reversible {R M : Type} (impl : UnpackableT R M)
    (hgs : ∀ r n, impl.getName (impl.setName r n) = n)
    (nm : String) (b : Json) (l : List R)
    (hasc : UnmarshalWithName impl nm b [] = .ok l) :
    UnmarshalWithName impl nm b [] = .ok l
    ∧ List.Sorted (fun a c => strLe a c = true) (l.map impl.getName)
    ∧ UnmarshalWithName impl nm b [WithOrdering Descending] = .ok l.reverse
    ∧ (∀ ks ks' : List String, ks.Perm ks' → sortKeys ks = sortKeys ks') := by
  by_cases hnm : nm = ""
  · rw [UnmarshalWithName, if_pos hnm] at hasc
    cases hasc
  have hasc0 := hasc
  rw [unmarshalWithName_run impl nm hnm b []] at hasc
  cases hdec : decodeMapMap b with
  | none => rw [hdec] at hasc; cases hasc
  | some mm =>
    rw [hdec] at hasc
    dsimp only at hasc
    cases hlk : List.lookup nm (mm.getD []) with
    | none => rw [hlk] at hasc; cases hasc
    | some mData =>
      rw [hlk] at hasc
      dsimp only at hasc
      rw [applyOpts_forced_named] at hasc
      unfold assemble at hasc
      dsimp only at hasc
      rw [if_neg (show ¬ (Ascending = Descending) from by decide)] at hasc
      cases hpi : processItems impl impl.newT (mData.getD [])
          (sortKeys ((mData.getD []).map Prod.fst)) with
      | ok l0 =>
        rw [hpi] at hasc
        dsimp only [Res.map] at hasc
        simp only [Res.ok.injEq] at hasc
        have hl0 : l0 = l := hasc
        subst hl0
        have hnames := processItems_ok_names impl hgs impl.newT (mData.getD []) _ _ hpi
        refine ⟨hasc0, ?_, ?_, fun ks ks' h => sortKeys_eq_of_perm ks ks' h⟩
        · rw [hnames]
          exact sortKeys_sorted _
        · rw [unmarshalWithName_run impl nm hnm b [WithOrdering Descending], hdec]
          dsimp only
          rw [hlk]
          dsimp only
          rw [applyOpts_desc_named]
          unfold assemble
          dsimp only
          rw [if_pos rfl]
          rw [processItems_reverse impl impl.newT (mData.getD []) _ _ hpi]
          rfl
      | err e => rw [hpi] at hasc; cases hasc
      | panicked msg => rw [hpi] at hasc; cases hasc

theorem decode_deterministic_witness :
    UnmarshalWithName pairImpl "a"
      (.obj [("a", .obj [("x", .obj [("v", .num ⟨1, 1⟩)]), ("y", .obj [("v", .num ⟨2, 1⟩)])])])
      [WithOrdering Descending] = .ok [("y", 2), ("x", 1)] :=
  (decode_deterministic_and_reversible pairImpl (fun _ _ => rfl) "a"
    (.obj [("a", .obj [("x", .obj [("v", .num ⟨1, 1⟩)]), ("y", .obj [("v", .num ⟨2, 1⟩)])])])
    [("x", 1), ("y", 2)] (by decide)).2.2.1

/-- C1: round-trip law.  For a sequence of records with unique names whose
    per-record codec round-trips (the item loop decodes `json.Marshal` of a
    record back to itself once its name is re-assigned), encoding with
    either declared shape (anonymous via `Marshal`, named via
    `MarshalWithName`) and decoding with the matching shape and default
    options yields the same records up to key-ordering: the result is a
    permutation of the input ordered by lexicographically ascending name. -/
theorem roundtrip_decode_encode {R M : Type} (impl : UnpackableT R M)
    (recs : List R)
    (hnodup : (recs.map impl.getName).Nodup)
    (hre : ∀ r ∈ recs,
      itemDecode impl impl.newT (impl.toJson r) (impl.getName r) = .ok r) :
    (∃ b l, Marshal impl recs [] = .ok b ∧ Unmarshal impl b [] = .ok l
       ∧ l.Perm recs ∧ List.Sorted (fun a c => strLe a c = true) (l.map impl.getName))
    ∧ (∀ nm : String, nm ≠ "" →
       ∃ b l, MarshalWithName impl nm recs [] = .ok b
       ∧ UnmarshalWithName impl nm b [] = .ok l
       ∧ l.Perm recs ∧ List.Sorted (fun a c => strLe a c = true) (l.map impl.getName)) := by
  classical
  set pairs := recs.map (fun r => (impl.getName r, impl.toJson r)) with hpairs
  have hpkeys : pairs.map Prod.fst = recs.map impl.getName := by
    rw [hpairs, List.map_map]
    rfl
  have hbuild : buildObj pairs = pairs :=
    buildObj_eq_self pairs (by rw [hpkeys]; exact hnodup)
  -- the decoded result
  set g : String → R := recFor impl recs with hg
  set ks : List String := sortKeys (recs.map impl.getName) with hks
  have hksmem : ∀ n ∈ ks, ∃ r ∈ recs, impl.getName r = n := by
    intro n hn
    have : n ∈ recs.map impl.getName := (sortKeys_perm _).mem_iff.mp hn
    obtain ⟨r, hr, hrn⟩ := List.mem_map.mp this
    exact ⟨r, hr, hrn⟩
  have hall : ∀ n ∈ ks, ∃ v, List.lookup n pairs = some v
      ∧ itemDecode impl impl.newT v n = .ok (g n) := by
    intro n hn
    obtain ⟨r, hr, hrn⟩ := hksmem n hn
    refine ⟨impl.toJson r, ?_, ?_⟩
    · rw [← hrn, hpairs]
      exact lookup_map_pairs impl.getName impl.toJson recs r hnodup hr
    · rw [← hrn, hg, recFor_getName impl recs hnodup r hr]
      exact hre r hr
  have hpi : processItems impl impl.newT pairs ks = .ok (ks.map g) :=
    processItems_ok_of impl impl.newT pairs g ks hall
  have hperm : (ks.map g).Perm recs := by
    have h1 : (ks.map g).Perm ((recs.map impl.getName).map g) :=
      List.Perm.map g (by rw [hks]; exact sortKeys_perm _)
    have h2 : (recs.map impl.getName).map g = recs := by
      rw [hg]
      exact map_recFor impl recs hnodup recs (fun r hr => hr)
    rw [h2] at h1
    exact h1
  have hnames : (ks.map g).map impl.getName = ks := by
    rw [List.map_map]
    have : ∀ n ∈ ks, (impl.getName ∘ g) n = n := by
      intro n hn
      exact getName_recFor impl recs n (hksmem n hn)
    calc ks.map (impl.getName ∘ g) = ks.map id := List.map_congr_left this
      _ = ks := List.map_id ks
  have hsorted : List.Sorted (fun a c => strLe a c = true) ((ks.map g).map impl.getName) := by
    rw [hnames, hks]
    exact sortKeys_sorted _
  have hassemble : assemble impl (⟨anonymousItemMap, impl.newT, Ascending⟩ : Options R)
      (some pairs) = .ok (ks.map g) := by
    unfold assemble
    dsimp only [Option.getD]
    rw [hpkeys, if_neg (show ¬ (Ascending = Descending) from by decide)]
    exact hpi
  have hassembleN : assemble impl (⟨namedItemMap, impl.newT, Ascending⟩ : Options R)
      (some pairs) = .ok (ks.map g) := by
    unfold assemble
    dsimp only [Option.getD]
    rw [hpkeys, if_neg (show ¬ (Ascending = Descending) from by decide)]
    exact hpi
  constructor
  · refine ⟨.obj pairs, ks.map g, ?_, ?_, hperm, hsorted⟩
    · unfold Marshal marshal
      dsimp only
      rw [applyOpts_forced_anon_marshal]
      rw [if_neg (show ¬ (anonymousItemMap = namedItemMap) from by decide)]
      rw [if_pos rfl]
      rw [← hpairs, hbuild]
    · rw [unmarshalAnon_run impl (.obj pairs) []]
      rw [show decodeMap (Json.obj pairs) = some (some (buildObj pairs)) from rfl, hbuild]
      dsimp only
      rw [applyOpts_forced_anon, hassemble]
      rfl
  · intro nm hnm
    refine ⟨.obj [(nm, .obj pairs)], ks.map g, ?_, ?_, hperm, hsorted⟩
    · unfold MarshalWithName
      rw [if_neg hnm]
      unfold marshal
      dsimp only
      rw [applyOpts_forced_named_marshal]
      rw [if_pos rfl]
      rw [← hpairs, hbuild]
    · rw [unmarshalWithName_run impl nm hnm _ []]
      rw [show decodeMapMap (Json.obj [(nm, Json.obj pairs)])
          = some (some [(nm, some (buildObj pairs))]) from rfl, hbuild]
      try dsimp only [Option.getD]
      rw [List.lookup_cons]
      simp only [beq_self_eq_true]
      try dsimp only
      rw [applyOpts_forced_named, hassembleN]
      rfl

theorem roundtrip_decode_encode_witness :
    ((([("b", 2), ("a", 1)] : List (String × Int)).map pairImpl.getName).Nodup
      ∧ ∀ r ∈ ([("b", 2), ("a", 1)] : List (String × Int)),
          itemDecode pairImpl pairImpl.newT (pairImpl.toJson r) (pairImpl.getName r) = .ok r)
    ∧ (∃ b l, Marshal pairImpl [("b", 2), ("a", 1)] [] = .ok b
        ∧ Unmarshal pairImpl b [] = .ok l
        ∧ l.Perm [("b", 2), ("a", 1)]
        ∧ List.Sorted (fun a c => strLe a c = true) (l.map pairImpl.getName)) :=
  ⟨⟨by decide, by decide⟩,
   (roundtrip_decode_encode pairImpl [("b", 2), ("a", 1)] (by decide) (by decide)).1⟩

/-- C6 counterexample: the claim that a scalar is assigned only when the
    conversion is lossless is false.  The dynamic number 3/2 is not
    representable in an integer destination, yet `setFieldValue` assigns
    the truncated value 1 via `reflect.Convert` and reports no error. -/
theorem scalar_coercion_truncates_counterexample :
    setFieldValue .tInt (.vInt 0) (.num ⟨3, 2⟩) = .ok (.vInt 1)
    ∧ setFieldValue .tInt (.vInt 0) (.num ⟨3, 2⟩)
        ≠ .error "cannot convert value to destination type" := by
  have h : setFieldValue .tInt (.vInt 0) (.num ⟨3, 2⟩) = .ok (.vInt (numTrunc ⟨3, 2⟩)) := by
    simp [setFieldValue, convertDyn]
  have ht : numTrunc ⟨3, 2⟩ = 1 := by decide
  rw [ht] at h
  refine ⟨h, ?_⟩
  rw [h]
  intro he
  cases he

/-- C6 (amended): for dynamic scalars and scalar destination fields the
    engine assigns whenever Go's conversion rules admit a conversion — a
    number into a float field or an integer field (the latter truncating
    toward zero, which is lossy for fractional values), a string into a
    string field, a bool into a bool field — and fails with a coercion
    error exactly when no conversion exists (string/bool into numeric,
    number into string or bool, and so on). -/
theorem scalar_coercion_convertible :
    (∀ (q : JNum) (cur : GoVal), setFieldValue .tFloat cur (.num q) = .ok (.vFloat q))
    ∧ (∀ (q : JNum) (cur : GoVal), setFieldValue .tInt cur (.num q) = .ok (.vInt (numTrunc q)))
    ∧ (∀ (s : String) (cur : GoVal), setFieldValue .tStr cur (.str s) = .ok (.vStr s))
    ∧ (∀ (b : Bool) (cur : GoVal), setFieldValue .tBool cur (.bool b) = .ok (.vBool b))
    ∧ (∀ (s : String) (cur : GoVal), setFieldValue .tInt cur (.str s)
        = .error "cannot convert value to destination type")
    ∧ (∀ (q : JNum) (cur : GoVal), setFieldValue .tStr cur (.num q)
        = .error "cannot convert value to destination type")
    ∧ (∀ (b : Bool) (cur : GoVal), setFieldValue .tInt cur (.bool b)
        = .error "cannot convert value to destination type")
    ∧ (∀ (q : JNum) (cur : GoVal), setFieldValue .tBool cur (.num q)
        = .error "cannot convert value to destination type")
    ∧ (∀ (s : String) (cur : GoVal), setFieldValue .tFloat cur (.str s)
        = .error "cannot convert value to destination type")
    ∧ (∀ (b : Bool) (cur : GoVal), setFieldValue .tStr cur (.bool b)
        = .error "cannot convert value to destination type") := by
  refine ⟨?_, ?_, ?_, ?_, ?_, ?_, ?_, ?_, ?_, ?_⟩ <;>
    intro x cur <;> simp [setFieldValue, convertDyn]

/-- C10: field-by-field coercion is frame-preserving.  When `mapToStruct`
    succeeds, every destination field whose resolved tag is the ignore
    marker `-`, or whose resolved tag is absent from the source map, or
    which is not settable, is left at exactly its prior value — whatever
    value the factory put there, not merely the zero value. -/
theorem mapToStruct_frame (m : List (String × Json)) :
    ∀ (fields fields2 : List GoField),
    mapToStructFields m fields = .ok fields2 →
    List.Forall₂ (fun f fb =>
      (resolvedTag f.name f.tag = "-"
        ∨ List.lookup (resolvedTag f.name f.tag) m = none
        ∨ f.settable = false) → fb = f) fields fields2 := by
  intro fields
  induction fields with
  | nil =>
    intro fields2 h
    unfold mapToStructFields at h
    simp only [Except.ok.injEq] at h
    rw [← h]
    exact List.Forall₂.nil
  | cons f rest ih =>
    intro fields2 h
    unfold mapToStructFields at h
    dsimp only at h
    by_cases htag : resolvedTag f.name f.tag = "-"
    · rw [if_pos htag] at h
      cases hrest : mapToStructFields m rest with
      | ok tl =>
        rw [hrest] at h
        simp only [Except.ok.injEq] at h
        rw [← h]
        exact List.Forall₂.cons (fun _ => rfl) (ih tl hrest)
      | error e => rw [hrest] at h; cases h
    · rw [if_neg htag] at h
      by_cases hset : f.settable
      · rw [if_pos hset] at h
        cases hlk : List.lookup (resolvedTag f.name f.tag) m with
        | some v =>
          rw [hlk] at h
          dsimp only at h
          cases hsf : setFieldValue f.ty f.val v with
          | ok w =>
            rw [hsf] at h
            dsimp only at h
            cases hrest : mapToStructFields m rest with
            | ok tl =>
              rw [hrest] at h
              simp only [Except.ok.injEq] at h
              rw [← h]
              refine List.Forall₂.cons ?_ (ih tl hrest)
              intro hcond
              rcases hcond with h1 | h2 | h3
              · exact absurd h1 htag
              · rw [hlk] at h2; cases h2
              · rw [h3] at hset; cases hset
            | error e => rw [hrest] at h; cases h
          | error e => rw [hsf] at h; dsimp only at h; cases h
        | none =>
          rw [hlk] at h
          dsimp only at h
          cases hrest : mapToStructFields m rest with
          | ok tl =>
            rw [hrest] at h
            simp only [Except.ok.injEq] at h
            rw [← h]
            exact List.Forall₂.cons (fun _ => rfl) (ih tl hrest)
          | error e => rw [hrest] at h; cases h
      · rw [if_neg hset] at h
        cases hrest : mapToStructFields m rest with
        | ok tl =>
          rw [hrest] at h
          simp only [Except.ok.injEq] at h
          rw [← h]
          exact List.Forall₂.cons (fun _ => rfl) (ih tl hrest)
        | error e => rw [hrest] at h; cases h

theorem mapToStruct_frame_witness :
    (mapToStructFields [("age", .num ⟨10, 1⟩)]
        [⟨"Name", "", true, .tStr, .vStr "factory"⟩,
         ⟨"Skip", "-", true, .tInt, .vInt 7⟩]
      = .ok [⟨"Name", "", true, .tStr, .vStr "factory"⟩,
             ⟨"Skip", "-", true, .tInt, .vInt 7⟩])
    ∧ List.Forall₂ (fun (f fb : GoField) =>
        (resolvedTag f.name f.tag = "-"
          ∨ List.lookup (resolvedTag f.name f.tag) [("age", Json.num ⟨10, 1⟩)] = none
          ∨ f.settable = false) → fb = f)
        ([⟨"Name", "", true, .tStr, .vStr "factory"⟩,
          ⟨"Skip", "-", true, .tInt, .vInt 7⟩] : List GoField)
        ([⟨"Name", "", true, .tStr, .vStr "factory"⟩,
          ⟨"Skip", "-", true, .tInt, .vInt 7⟩] : List GoField) := by
  have heval : mapToStructFields [("age", .num ⟨10, 1⟩)]
      [⟨"Name", "", true, .tStr, .vStr "factory"⟩,
       ⟨"Skip", "-", true, .tInt, .vInt 7⟩]
      = .ok [⟨"Name", "", true, .tStr, .vStr "factory"⟩,
             ⟨"Skip", "-", true, .tInt, .vInt 7⟩] := by
    simp [mapToStructFields, resolvedTag, tagHead, takeUntilComma, List.lookup]
  exact ⟨heval, mapToStruct_frame _ _ _ heval⟩

end Unpack
